import Mathlib

/-!
Verification development for the AI-CG-NEWS-UPDATE repository.

The definitions below are a shallow embedding of the browser application
controller (`website/app.js`) and the serverless reader proxy
(`api/reader.js`).  JavaScript strings are modelled as `List Char` where
character-level scanning matters, calendar dates as integer day numbers
(the code compares `YYYY-MM-DD` strings and millisecond differences of
UTC midnights, both of which coincide with day-number arithmetic), and
JavaScript numbers as rationals where only comparisons and clamping of
decimal fractions occur.
-/

namespace AicgNews

/-! ## FavoritesManager (app.js lines 225–265)

A favorite entry is `{url, title, note, date}`; the stored value is a
JSON array of such entries.  `add` prepends when the url is new, `remove`
filters by url, `update` object-spreads the given fields onto the first
entry whose url matches. -/

structure FavoriteEntry where
  url : String
  title : String
  note : String
  date : String
deriving DecidableEq, Repr

/-- The `updates` argument of `FavoritesManager.update`: a partial record
whose present fields overwrite the matched entry (JS object spread). -/
structure FavoriteUpdates where
  titleField : Option String
  noteField : Option String
deriving DecidableEq, Repr

/-- JS spread `{...entry, ...updates}`: fields present in `updates` win. -/
def mergeEntry (e : FavoriteEntry) (u : FavoriteUpdates) : FavoriteEntry :=
  { e with title := u.titleField.getD e.title, note := u.noteField.getD e.note }

/-- The method `FavoritesManager.add`: dedupe by url, prepend on success.  Returns
the JS return value together with the list that ends up in storage. -/
def favAdd (item : FavoriteEntry) (list : List FavoriteEntry) :
    Bool × List FavoriteEntry :=
  if list.any (fun i => i.url == item.url) then (false, list)
  else (true, item :: list)

/-- The method `FavoritesManager.remove`: delete by url. -/
def favRemove (url : String) (list : List FavoriteEntry) : List FavoriteEntry :=
  list.filter (fun i => i.url != url)

/-- The method `FavoritesManager.isFavorite`. -/
def isFavorite (url : String) (list : List FavoriteEntry) : Bool :=
  list.any (fun i => i.url == url)

/-- The method `FavoritesManager.update`: `findIndex` by url, spread `updates` onto
the first match, report success. -/
def favUpdate (url : String) (u : FavoriteUpdates) :
    List FavoriteEntry → Bool × List FavoriteEntry
  | [] => (false, [])
  | e :: rest =>
    if e.url == url then (true, mergeEntry e u :: rest)
    else
      let r := favUpdate url u rest
      (r.1, e :: r.2)

/-- Number of entries carrying a given url. -/
def countUrl (url : String) (list : List FavoriteEntry) : Nat :=
  (list.filter (fun i => i.url == url)).length

/-! ## StreakManager (app.js lines 111–182)

The stored value is `{lastVisitDate, streakDays}`.  Dates are modelled as
integer day numbers; `diffDays` in the source is the floor of an exact
multiple of 86 400 000 ms (both operands are UTC midnights of calendar
dates), hence exactly the day-number difference. -/

structure StreakState where
  lastVisitDate : Option Int
  streakDays : Int
deriving DecidableEq, Repr

structure StreakResult where
  streakDays : Int
  isNewDay : Bool
  message : String
deriving DecidableEq, Repr

/-- Default returned by `StreakManager.get` when the key is absent. -/
def streakDefault : StreakState := ⟨none, 0⟩

/-- The method `StreakManager.update` given the parsed prior state and today's day
number; returns the JS result object and the state written to storage. -/
def streakUpdate (prior : StreakState) (today : Int) :
    StreakResult × StreakState :=
  match prior.lastVisitDate with
  | none =>
    (⟨1, true, "欢迎！这是你的第一天"⟩, ⟨some today, 1⟩)
  | some last =>
    if last = today then
      (⟨prior.streakDays, false, ""⟩, ⟨some today, prior.streakDays⟩)
    else
      let diffDays := today - last
      if diffDays = 1 then
        let newStreak := prior.streakDays + 1
        let message :=
          if newStreak = 7 then "🎉 已连续打开 7 天"
          else if newStreak = 3 then "✨ 已连续打开 3 天"
          else ""
        (⟨newStreak, true, message⟩, ⟨some today, newStreak⟩)
      else
        (⟨1, true, ""⟩, ⟨some today, 1⟩)

/-- Raw storage under `aicg_news_streak`: absent, an unparsable string
(on which `JSON.parse` throws), or a parsed state. -/
inductive StreakStored where
  | absent
  | corrupt
  | parsed (state : StreakState)
deriving DecidableEq, Repr

/-- The method `StreakManager.get`: absent falls back to the default, an unparsable
value makes `JSON.parse` throw (modelled as `Except.error`). -/
def streakGet : StreakStored → Except Unit StreakState
  | .absent => .ok streakDefault
  | .corrupt => .error ()
  | .parsed s => .ok s

/-- The method `StreakManager.update` at the storage level: the `get` at the top of
the method can throw, in which case nothing is persisted. -/
def streakUpdateStored (st : StreakStored) (today : Int) :
    Except Unit (StreakResult × StreakStored) :=
  match streakGet st with
  | .error e => .error e
  | .ok prior =>
    let r := streakUpdate prior today
    .ok (r.1, .parsed r.2)

/-- The method `StreakManager.getDisplayText`: empty when `streakDays ≤ 0`. -/
def getDisplayText (st : StreakStored) : Except Unit String :=
  match streakGet st with
  | .error e => .error e
  | .ok s =>
    .ok (if s.streakDays ≤ 0 then ""
         else "已连续打开 " ++ toString s.streakDays ++ " 天")

/-! ## Reader proxy (api/reader.js)

`isValidUrl` runs `new URL(s)` and checks the protocol against
`['http:', 'https:']`.  The WHATWG parse is modelled only as far as the
boolean observes it: a scheme is an ASCII letter followed by
letters/digits/`+`/`-`/`.` up to a `:`; for the special schemes `http`
and `https` the parser skips any run of slashes after the colon and then
requires a nonempty host (the boolean is `false` for every non-http(s)
scheme whether or not the tail parses, exactly as in the source). -/

def isAsciiAlpha (c : Char) : Bool :=
  ('a' ≤ c && c ≤ 'z') || ('A' ≤ c && c ≤ 'Z')

def isSchemeChar (c : Char) : Bool :=
  isAsciiAlpha c || c.isDigit || c == '+' || c == '-' || c == '.'

/-- Scan the scheme of an absolute URL: returns the characters before
the first `:` (all scheme characters) and the remainder after it. -/
def schemeSplit (acc : List Char) : List Char → Option (List Char × List Char)
  | [] => none
  | c :: rest =>
    if c == ':' then some (acc.reverse, rest)
    else if isSchemeChar c then schemeSplit (c :: acc) rest
    else none

def parseUrlScheme (s : List Char) : Option (List Char × List Char) :=
  match s with
  | [] => none
  | c :: _ => if isAsciiAlpha c then schemeSplit [] s else none

/-- After the colon of a special scheme the parser ignores any run of
slashes (forward or back). -/
def dropSlashes : List Char → List Char
  | [] => []
  | c :: r => if c == '/' || c == '\\' then dropSlashes r else c :: r

/-- A special-scheme URL needs a nonempty host before `/ ? # \`. -/
def hostNonempty : List Char → Bool
  | [] => false
  | c :: _ => !(c == '/' || c == '?' || c == '#' || c == '\\')

/-- The function `isValidUrl` from api/reader.js. -/
def isValidUrl (s : String) : Bool :=
  match parseUrlScheme s.toList with
  | none => false
  | some (scheme, rest) =>
    let schemeL := scheme.map Char.toLower
    (schemeL == "http".toList || schemeL == "https".toList)
      && hostNonempty (dropSlashes rest)

/-- Outcome of the proxied `fetch`: a response with a status and body
text, an abort (the 12 s timeout fired), or any other failure. -/
inductive Upstream where
  | resp (status : Nat) (body : String)
  | abortErr
  | fetchErr
deriving DecidableEq, Repr

/-- JSON body written by the handler. -/
inductive ReaderBody where
  | errorJson (msg : String)
  | htmlJson (html : String)
deriving DecidableEq, Repr

/-- The observable response: status plus the headers the handler itself
sets, plus the JSON body (`none` for the bare `405` `end()`). -/
structure ApiResponse where
  status : Nat
  allow : Option String
  contentType : Option String
  cacheControl : Option String
  body : Option ReaderBody
deriving DecidableEq, Repr

def badRequest : ApiResponse :=
  ⟨400, none, none, none, some (.errorJson "Missing or invalid url")⟩

/-- The serverless handler of api/reader.js.  `urlParam` is the `url`
query parameter (`none` when absent); `up` is what the upstream fetch
does on the validated URL. -/
def handler (method : String) (urlParam : Option String) (up : Upstream) :
    ApiResponse :=
  if method ≠ "GET" then ⟨405, some "GET", none, none, none⟩
  else
    match urlParam with
    | none => badRequest
    | some u =>
      if u = "" || !isValidUrl u then badRequest
      else
        match up with
        | .resp status body =>
          if 200 ≤ status ∧ status ≤ 299 then
            ⟨200, none, some "application/json; charset=utf-8",
              some "private, max-age=60", some (.htmlJson body)⟩
          else ⟨status, none, none, none, some (.errorJson "Upstream error")⟩
        | .abortErr => ⟨504, none, none, none, some (.errorJson "Timeout")⟩
        | .fetchErr => ⟨502, none, none, none, some (.errorJson "Fetch failed")⟩

/-! ## History probe and refresh (app.js lines 420–434, 1225–1305)

Dates are integer day numbers; `getRecentDates` yields today and the six
preceding days, newest first.  A date is available when the fetch
succeeds (`response.ok`) and the trimmed body starts with `#`. -/

/-- What fetching `<date>.md` did: a network error (the `catch` arm) or
a response with `ok` flag and body text. -/
inductive FetchResult where
  | err
  | resp (ok : Bool) (body : String)
deriving Repr

/-- JS `text.trim()`: strip leading and trailing whitespace. -/
def trimChars (l : List Char) : List Char :=
  ((l.dropWhile Char.isWhitespace).reverse.dropWhile Char.isWhitespace).reverse

/-- JS `text.trim().startsWith('#')`. -/
def startsWithHash (l : List Char) : Bool :=
  match trimChars l with
  | '#' :: _ => true
  | _ => false

/-- The availability test of `initHistoryList`. -/
def reportAvailable : FetchResult → Bool
  | .err => false
  | .resp ok body => ok && startsWithHash body.toList

/-- The function `getRecentDates(days)`: newest first. -/
def recentDates (today : Int) (n : Nat) : List Int :=
  (List.range n).map (fun i : Nat => today - (i : Int))

/-- The `availableDates` array built by `initHistoryList`. -/
def availableDates (fetch : Int → FetchResult) (dates : List Int) : List Int :=
  dates.filter (fun d => reportAvailable (fetch d))

/-- History entry icon: pin for today, document otherwise. -/
def historyIcon (isToday : Bool) : String := if isToday then "📌" else "📄"

/-- Observable outcome of `refresh()`: rendered history entries (date
and icon, newest first), the date whose content is displayed (`none`
when the empty state shows), the URL fragment afterwards, and the empty
state copy when no date is available. -/
structure RefreshView where
  entries : List (Int × String)
  displayed : Option Int
  finalHash : Option Int
  emptyMsg : Option String
deriving DecidableEq, Repr

def emptyStateCopy : String := "等待每日北京时间 08:00 自动生成新闻报告"

/-- The function `refresh()` given today, the per-date fetch outcome, and the current
URL fragment (`none` when unset or not a date).  `showNews` sets the
fragment to the displayed date. -/
def refresh (today : Int) (fetch : Int → FetchResult) (hash : Option Int) :
    RefreshView :=
  let avail := availableDates fetch (recentDates today 7)
  match avail with
  | [] => ⟨[], none, hash, some emptyStateCopy⟩
  | a :: rest =>
    let target :=
      match hash with
      | some h => if (a :: rest).contains h then h else a
      | none => a
    ⟨(a :: rest).map (fun d => (d, historyIcon (d = today))),
      some target, some target, none⟩

/-! ## arXiv preview transforms (app.js lines 1687–1705)

JS `String.replace` with a string pattern replaces only the first
occurrence. -/

/-- JS `s.replace(pat, rep)`: first occurrence only; the original string
when the pattern does not occur. -/
def replaceFirst (pat rep : List Char) : List Char → List Char
  | [] => if pat.isPrefixOf ([] : List Char) then rep else []
  | s@(c :: rest) =>
    if pat.isPrefixOf s then rep ++ s.drop pat.length
    else c :: replaceFirst pat rep rest

/-- The `specialPdfBtn` handler: `/abs/`→`/pdf/`, `/html/`→`/pdf/`,
append `.pdf` when not already the suffix. -/
def toPdfUrl (url : List Char) : List Char :=
  let u := replaceFirst "/abs/".toList "/pdf/".toList url
  let u := replaceFirst "/html/".toList "/pdf/".toList u
  if ".pdf".toList.isSuffixOf u then u else u ++ ".pdf".toList

/-- The `specialAbsBtn` handler: `/pdf/`→`/abs/`, then drop the first
occurrence of `.pdf`. -/
def toAbsUrl (url : List Char) : List Char :=
  let u := replaceFirst "/pdf/".toList "/abs/".toList url
  replaceFirst ".pdf".toList [] u

/-! ## Summary sanitation (app.js lines 525–550)

`sanitizeNewsContent` blanks a `.news-summary` block when either of two
checks on its markup fires; both checks read the same original string. -/

/-- JS `String.includes(pat)`. -/
def containsTok (pat : List Char) : List Char → Bool
  | [] => pat.isPrefixOf ([] : List Char)
  | s@(_ :: rest) => pat.isPrefixOf s || containsTok pat rest

/-- Whether `/<img[^>]+>/` matches somewhere: an occurrence of `<img`
followed by at least one non-`>` character and then a `>`. -/
def hasImgMatch : List Char → Bool
  | [] => false
  | s@(_ :: rest) =>
    (if "<img".toList.isPrefixOf s then
      match s.drop 4 with
      | [] => false
      | c :: cs => c != '>' && cs.contains '>'
     else false) || hasImgMatch rest

/-- Fuel-bounded scan counting `style="` occurrences the way the global
regex `/style="/g` does (each found occurrence is skipped over; the
pattern cannot overlap itself).  Every recursive call is on a strictly
shorter list, so fuel equal to the list length never runs out. -/
def countOpenFuel : Nat → List Char → Nat
  | 0, _ => 0
  | _ + 1, [] => 0
  | fuel + 1, c :: rest =>
    if "style=\"".toList.isPrefixOf (c :: rest) then
      1 + countOpenFuel fuel (rest.drop 6)
    else countOpenFuel fuel rest

/-- Global count of `style="` occurrences (`/style="/g`). -/
def countStyleOpen (l : List Char) : Nat := countOpenFuel l.length l

/-- Skip to just past the first `"`; `none` when there is none. -/
def pastQuote : List Char → Option (List Char)
  | [] => none
  | c :: cs => if c == '"' then some cs else pastQuote cs

/-- Fuel-bounded scan counting matches of `/style="[^"]*"/g`: at each
`style="` the greedy quote-free run must be closed by a `"`, and
matching resumes after that quote.  Every recursive call is on a
strictly shorter list (`pastQuote` only ever returns a strict suffix),
so fuel equal to the list length never runs out. -/
def countClosedFuel : Nat → List Char → Nat
  | 0, _ => 0
  | _ + 1, [] => 0
  | fuel + 1, c :: rest =>
    if "style=\"".toList.isPrefixOf (c :: rest) then
      match pastQuote (rest.drop 6) with
      | some after => 1 + countClosedFuel fuel after
      | none => countClosedFuel fuel rest
    else countClosedFuel fuel rest

/-- Global count of matches of `/style="[^"]*"/g`. -/
def countStyleClosed (l : List Char) : Nat := countClosedFuel l.length l

/-- First check: contains `<img`, contains no `/>`, and `/<img[^>]+>/`
does not match. -/
def brokenImgCheck (l : List Char) : Bool :=
  containsTok "<img".toList l && !containsTok "/>".toList l && !hasImgMatch l

/-- Second check: more `style="` openings than closed `style="..."`. -/
def unbalancedStyleCheck (l : List Char) : Bool :=
  decide (countStyleClosed l < countStyleOpen l)

/-- The per-block effect of `sanitizeNewsContent` on a `.news-summary`
block's markup: blanked when either check fires. -/
def sanitizeSummary (l : List Char) : List Char :=
  if brokenImgCheck l || unbalancedStyleCheck l then [] else l

/-- Modelled from the spec's words for the refinement comparison: the
block "contains an unterminated `<img` tag" — an occurrence of `<img`
with no closing `>` anywhere after it. -/
def hasUntermImgSpec : List Char → Bool
  | [] => false
  | s@(_ :: rest) =>
    ("<img".toList.isPrefixOf s && !(s.drop 4).contains '>')
      || hasUntermImgSpec rest

/-! ## Split-screen ratio (app.js lines 1958–2069)

`updateRatio` clamps `x / width` to `[0.2, 0.8]` before applying it;
`endDrag` persists the current ratio; `initDraggable` restores a stored
ratio with `parseFloat` and applies it with no clamping.  Ratios are
modelled as rationals; the stored string as the rational it parses to
(`none` for an absent or falsy value). -/

structure PreviewState where
  splitRatio : ℚ
  stored : Option ℚ
deriving DecidableEq, Repr

/-- Initial state: default ratio 0.5 over a given stored value. -/
def initialPreview (stored : Option ℚ) : PreviewState := ⟨1/2, stored⟩

/-- JS `Math.max(0.2, Math.min(0.8, t))`. -/
def clampRatio (t : ℚ) : ℚ := max (1/5) (min (4/5) t)

inductive PreviewEvent where
  | restore
  | dragMove (x w : ℚ)
  | release
deriving DecidableEq, Repr

/-- One observable step of the divider logic: `restore` is the
`initDraggable` localStorage read-back, `dragMove x w` a drag update at
pointer offset `x` in a wrapper of width `w` (applied via the animation
frame), `release` the `endDrag` persistence. -/
def stepPreview (st : PreviewState) : PreviewEvent → PreviewState
  | .restore =>
    match st.stored with
    | none => st
    | some q => { st with splitRatio := q }
  | .dragMove x w => { st with splitRatio := clampRatio (x / w) }
  | .release => { st with stored := some st.splitRatio }

/-- Scenario oracle: reports exist only for today and yesterday (both
with a genuine Markdown body), every other date 404s. -/
def reportsOnlyTodayYesterday (today : Int) : Int → FetchResult :=
  fun d => if d = today ∨ d = today - 1 then .resp true "# Daily Report"
           else .err

/-! ## Theorems -/

/-- Display text built by `getDisplayText` for a positive streak is
never the empty string. -/
theorem displayText_ne_empty (n : Int) :
    ("已连续打开 " ++ toString n ++ " 天") ≠ "" := by
  intro h
  have h2 := congrArg String.length h
  rw [String.length_append, String.length_append] at h2
  have h6 : ("已连续打开 " : String).length = 6 := rfl
  have h1 : (" 天" : String).length = 2 := rfl
  have h0 : ("" : String).length = 0 := rfl
  omega

/-- C1: Favorites are unique by url: `add` with an item whose url is
already stored returns failure and leaves the stored list unchanged;
`add` on a fresh url prepends the item, after which the url occurs
exactly once; and after `remove url`, `isFavorite url` is false. -/
theorem favorites_unique_by_url :
    (∀ (l : List FavoriteEntry) (item : FavoriteEntry),
        isFavorite item.url l = true → favAdd item l = (false, l)) ∧
    (∀ (l : List FavoriteEntry) (item : FavoriteEntry),
        isFavorite item.url l = false →
          favAdd item l = (true, item :: l) ∧
          countUrl item.url (item :: l) = 1) ∧
    (∀ (l : List FavoriteEntry) (url : String),
        isFavorite url (favRemove url l) = false) := by
  refine ⟨?_, ?_, ?_⟩
  · intro l item h
    simp only [isFavorite] at h
    simp [favAdd, h]
  · intro l item h
    simp only [isFavorite] at h
    refine ⟨by simp [favAdd, h], ?_⟩
    have hall : ∀ i ∈ l, ¬(i.url == item.url) = true := by
      intro i hi heq
      have hany : l.any (fun i => i.url == item.url) = true :=
        List.any_eq_true.mpr ⟨i, hi, heq⟩
      rw [h] at hany
      exact Bool.false_ne_true hany
    simp only [countUrl, List.filter_cons, beq_self_eq_true, if_pos]
    have hnil : l.filter (fun i => i.url == item.url) = [] :=
      List.filter_eq_nil_iff.mpr hall
    simp [hnil]
  · intro l url
    simp only [isFavorite, favRemove]
    rw [Bool.eq_false_iff]
    intro h
    rcases List.any_eq_true.mp h with ⟨i, hi, hieq⟩
    rcases List.mem_filter.mp hi with ⟨_, hne⟩
    rw [eq_of_beq hieq] at hne
    simp at hne

/-- Witness for `favorites_unique_by_url` at concrete inputs. -/
theorem favorites_unique_by_url_witness :
    favAdd ⟨"https://a", "A", "", "2026-01-01"⟩
        [⟨"https://a", "A", "", "2026-01-01"⟩]
      = (false, [⟨"https://a", "A", "", "2026-01-01"⟩]) ∧
    favAdd ⟨"https://a", "A", "", "2026-01-01"⟩ []
      = (true, [⟨"https://a", "A", "", "2026-01-01"⟩]) ∧
    countUrl "https://a" [⟨"https://a", "A", "", "2026-01-01"⟩] = 1 ∧
    isFavorite "https://a"
      (favRemove "https://a" [⟨"https://a", "A", "", "2026-01-01"⟩]) = false := by
  refine ⟨favorites_unique_by_url.1 _ _ (by decide),
    (favorites_unique_by_url.2.1 _ _ (by decide)).1,
    (favorites_unique_by_url.2.1 ([] : List FavoriteEntry)
      ⟨"https://a", "A", "", "2026-01-01"⟩ (by decide)).2,
    favorites_unique_by_url.2.2 _ _⟩

/-- C5: `update` on a url absent from the stored list fails and leaves
the list unchanged; `update` with only a `note` field on the first entry
matching the url replaces that entry's note while keeping its url,
title and date, every other entry, and the order. -/
theorem fav_update_frame :
    (∀ (l : List FavoriteEntry) (url : String) (u : FavoriteUpdates),
        isFavorite url l = false → favUpdate url u l = (false, l)) ∧
    (∀ (pre post : List FavoriteEntry) (e : FavoriteEntry) (n : String),
        (∀ x ∈ pre, x.url ≠ e.url) →
        favUpdate e.url ⟨none, some n⟩ (pre ++ e :: post) =
          (true, pre ++ { e with note := n } :: post)) := by
  constructor
  · intro l url u h
    induction l with
    | nil => rfl
    | cons x rest ih =>
      simp only [isFavorite, List.any_cons, Bool.or_eq_false_iff] at h
      simp only [favUpdate, h.1, Bool.false_eq_true, if_false]
      rw [ih (by simpa [isFavorite] using h.2)]
  · intro pre post e n hpre
    induction pre with
    | nil =>
      simp only [List.nil_append, favUpdate, beq_self_eq_true, if_pos]
      simp [mergeEntry]
    | cons x rest ih =>
      have hx : (x.url == e.url) = false :=
        beq_eq_false_iff_ne.mpr (hpre x (List.mem_cons_self x rest))
      have ih' := ih (fun y hy => hpre y (List.mem_cons_of_mem x hy))
      simp only [List.cons_append, favUpdate, hx, Bool.false_eq_true, if_false,
        List.append_eq]
      rw [ih']

/-- Witness for `fav_update_frame` at concrete inputs. -/
theorem fav_update_frame_witness :
    favUpdate "https://b" ⟨none, some "note"⟩ [⟨"https://a", "A", "", "d"⟩]
      = (false, [⟨"https://a", "A", "", "d"⟩]) ∧
    favUpdate "https://a" ⟨none, some "n2"⟩
        [⟨"https://x", "X", "", "d"⟩, ⟨"https://a", "A", "n1", "d"⟩]
      = (true, [⟨"https://x", "X", "", "d"⟩, ⟨"https://a", "A", "n2", "d"⟩]) := by
  constructor
  · exact fav_update_frame.1 _ _ _ (by decide)
  · simpa using fav_update_frame.2 [⟨"https://x", "X", "", "d"⟩] []
      ⟨"https://a", "A", "n1", "d"⟩ "n2" (by decide)

/-- C2: `StreakManager.update`: no prior visit gives streak 1 with the
welcome message; a same-day revisit keeps the streak with no message;
a visit exactly one day later increments the streak by 1, with a message
exactly at streaks 3 and 7 (and those exact strings); any gap of two or
more days resets to 1 with no message; and the persisted state always
carries today's date. -/
theorem streak_update_cases (today : Int) :
    (∀ s : Int, streakUpdate ⟨none, s⟩ today =
        (⟨1, true, "欢迎！这是你的第一天"⟩, ⟨some today, 1⟩)) ∧
    (∀ s : Int, streakUpdate ⟨some today, s⟩ today =
        (⟨s, false, ""⟩, ⟨some today, s⟩)) ∧
    (∀ s : Int,
        (streakUpdate ⟨some (today - 1), s⟩ today).1.streakDays = s + 1 ∧
        (streakUpdate ⟨some (today - 1), s⟩ today).2 = ⟨some today, s + 1⟩ ∧
        ((streakUpdate ⟨some (today - 1), s⟩ today).1.message ≠ "" ↔
          s + 1 = 3 ∨ s + 1 = 7) ∧
        (s + 1 = 3 →
          (streakUpdate ⟨some (today - 1), s⟩ today).1.message
            = "✨ 已连续打开 3 天") ∧
        (s + 1 = 7 →
          (streakUpdate ⟨some (today - 1), s⟩ today).1.message
            = "🎉 已连续打开 7 天")) ∧
    (∀ (last s : Int), 2 ≤ today - last →
        streakUpdate ⟨some last, s⟩ today = (⟨1, true, ""⟩, ⟨some today, 1⟩)) ∧
    (∀ prior : StreakState,
        (streakUpdate prior today).2.lastVisitDate = some today) := by
  refine ⟨fun s => rfl, fun s => by simp [streakUpdate], ?_, ?_, ?_⟩
  · intro s
    have hstep : streakUpdate ⟨some (today - 1), s⟩ today =
        (⟨s + 1, true,
          if s + 1 = 7 then "🎉 已连续打开 7 天"
          else if s + 1 = 3 then "✨ 已连续打开 3 天" else ""⟩,
         ⟨some today, s + 1⟩) := by
      have hne : today - 1 ≠ today := by omega
      have hdiff : today - (today - 1) = 1 := by omega
      simp [streakUpdate, hne, hdiff]
    rw [hstep]
    refine ⟨rfl, rfl, ?_, ?_, ?_⟩
    · by_cases h7 : s + 1 = 7
      · simp only [h7]
        norm_num
        decide
      · by_cases h3 : s + 1 = 3
        · simp only [h3, h7]
          norm_num
          decide
        · simp [h7, h3]
    · intro h3
      simp [h3]
    · intro h7
      simp [h7]
  · intro last s h
    have hne : last ≠ today := by omega
    have hdiff : today - last ≠ 1 := by omega
    simp [streakUpdate, hne, hdiff]
  · intro prior
    rcases prior with ⟨last, s⟩
    rcases last with _ | l
    · rfl
    · simp only [streakUpdate]
      split
      · rfl
      · split <;> rfl

/-- Witness for `streak_update_cases` at concrete inputs (today = day
10; the one-day-later case with prior streak 2 and a 5-day gap). -/
theorem streak_update_cases_witness :
    streakUpdate ⟨none, 0⟩ 10
      = (⟨1, true, "欢迎！这是你的第一天"⟩, ⟨some 10, 1⟩) ∧
    streakUpdate ⟨some 10, 4⟩ 10 = (⟨4, false, ""⟩, ⟨some 10, 4⟩) ∧
    (streakUpdate ⟨some 9, 2⟩ 10).1.streakDays = 3 ∧
    (streakUpdate ⟨some 9, 2⟩ 10).1.message = "✨ 已连续打开 3 天" ∧
    streakUpdate ⟨some 5, 2⟩ 10 = (⟨1, true, ""⟩, ⟨some 10, 1⟩) ∧
    (streakUpdate ⟨some 3, 9⟩ 10).2.lastVisitDate = some 10 := by
  refine ⟨(streak_update_cases 10).1 0, (streak_update_cases 10).2.1 4,
    ((streak_update_cases 10).2.2.1 2).1,
    ((streak_update_cases 10).2.2.1 2).2.2.2.1 (by decide),
    (streak_update_cases 10).2.2.2.1 5 2 (by decide),
    (streak_update_cases 10).2.2.2.2 ⟨some 3, 9⟩⟩

/-- C10 counterexample: an unparsable stored value makes
`StreakManager.update` throw (nothing is persisted), and a parsable
stored state with `streakDays = 0` and `lastVisitDate` equal to today is
persisted unchanged with streak 0, making `getDisplayText` empty. -/
theorem streak_persisted_positive_counterexample :
    streakUpdateStored .corrupt 0 = .error () ∧
    streakUpdateStored (.parsed ⟨some 0, 0⟩) 0 =
      .ok (⟨0, false, ""⟩, .parsed ⟨some 0, 0⟩) ∧
    getDisplayText (.parsed ⟨some 0, 0⟩) = .ok "" := by
  refine ⟨rfl, ?_, ?_⟩
  · simp [streakUpdateStored, streakGet, streakUpdate]
  · simp [getDisplayText, streakGet]

/-- C10 amended: whenever `StreakManager.update` completes (the prior
storage is absent or parses, and every parsed prior state the manager
itself ever persists has streak at least 1), the persisted state has
`streakDays ≥ 1` and the resulting display text is non-empty. -/
theorem streak_persisted_positive (st : StreakStored) (today : Int)
    (r : StreakResult) (st' : StreakStored)
    (hok : streakUpdateStored st today = .ok (r, st'))
    (hprior : ∀ s, st = .parsed s → 1 ≤ s.streakDays) :
    ∃ s', st' = .parsed s' ∧ 1 ≤ s'.streakDays ∧
      getDisplayText st' =
        .ok ("已连续打开 " ++ toString s'.streakDays ++ " 天") ∧
      ("已连续打开 " ++ toString s'.streakDays ++ " 天") ≠ "" := by
  have main : ∃ s', st' = .parsed s' ∧ 1 ≤ s'.streakDays := by
    rcases st with _ | _ | s
    · simp only [streakUpdateStored, streakGet] at hok
      rw [streakDefault] at hok
      simp only [streakUpdate, Except.ok.injEq, Prod.mk.injEq] at hok
      exact ⟨⟨some today, 1⟩, hok.2.symm, by norm_num⟩
    · simp [streakUpdateStored, streakGet] at hok
    · have hs := hprior s rfl
      simp only [streakUpdateStored, streakGet] at hok
      rcases s with ⟨last, days⟩
      have hs' : (1 : Int) ≤ days := hs
      rcases last with _ | l
      · simp only [streakUpdate, Except.ok.injEq, Prod.mk.injEq] at hok
        exact ⟨⟨some today, 1⟩, hok.2.symm, by norm_num⟩
      · simp only [streakUpdate] at hok
        by_cases hl : l = today
        · simp only [hl, if_pos rfl, Except.ok.injEq, Prod.mk.injEq] at hok
          exact ⟨⟨some today, days⟩, hok.2.symm, hs'⟩
        · simp only [hl, if_false] at hok
          by_cases hd : today - l = 1
          · simp only [hd, if_pos rfl, Except.ok.injEq, Prod.mk.injEq] at hok
            exact ⟨⟨some today, days + 1⟩, hok.2.symm,
              show (1 : Int) ≤ days + 1 by omega⟩
          · simp only [hd, if_false, Except.ok.injEq, Prod.mk.injEq] at hok
            exact ⟨⟨some today, 1⟩, hok.2.symm, by norm_num⟩
  rcases main with ⟨s', hst', hpos⟩
  refine ⟨s', hst', hpos, ?_, displayText_ne_empty _⟩
  have hnotle : ¬s'.streakDays ≤ 0 := by omega
  simp [getDisplayText, streakGet, hst', hnotle]

/-- Witness for `streak_persisted_positive`: a first visit on day 5. -/
theorem streak_persisted_positive_witness :
    ∃ s', (StreakStored.parsed ⟨some 5, 1⟩) = .parsed s' ∧
      1 ≤ s'.streakDays ∧
      getDisplayText (.parsed ⟨some 5, 1⟩) =
        .ok ("已连续打开 " ++ toString s'.streakDays ++ " 天") ∧
      ("已连续打开 " ++ toString s'.streakDays ++ " 天") ≠ "" :=
  streak_persisted_positive .absent 5 ⟨1, true, "欢迎！这是你的第一天"⟩
    (.parsed ⟨some 5, 1⟩) rfl (fun _ h => by cases h)

/-- A url accepted by `isValidUrl` is not the empty string. -/
theorem validUrl_ne_empty {u : String} (h : isValidUrl u = true) : u ≠ "" := by
  intro he
  subst he
  exact absurd h (by decide)

/-- C3: the reader proxy handler: non-GET gives 405 with `Allow: GET`;
a missing url parameter or one `isValidUrl` rejects (e.g. a
`javascript:` url) gives 400 with the structured error; an upstream
success gives 200 with the html body and `Cache-Control: private,
max-age=60`; a non-success upstream response is passed through with the
generic upstream error; an abort gives 504 Timeout; any other fetch
failure gives 502 Fetch failed. -/
theorem reader_handler_cases :
    (∀ (m : String) (u : Option String) (up : Upstream), m ≠ "GET" →
        handler m u up = ⟨405, some "GET", none, none, none⟩) ∧
    (∀ up : Upstream, handler "GET" none up = badRequest) ∧
    (∀ (u : String) (up : Upstream), isValidUrl u = false →
        handler "GET" (some u) up = badRequest) ∧
    isValidUrl "javascript:alert(1)" = false ∧
    isValidUrl "https://example.com" = true ∧
    (∀ (u : String) (status : Nat) (body : String), isValidUrl u = true →
        200 ≤ status → status ≤ 299 →
        handler "GET" (some u) (.resp status body) =
          ⟨200, none, some "application/json; charset=utf-8",
            some "private, max-age=60", some (.htmlJson body)⟩) ∧
    (∀ (u : String) (status : Nat) (body : String), isValidUrl u = true →
        ¬(200 ≤ status ∧ status ≤ 299) →
        handler "GET" (some u) (.resp status body) =
          ⟨status, none, none, none, some (.errorJson "Upstream error")⟩) ∧
    (∀ u : String, isValidUrl u = true →
        handler "GET" (some u) .abortErr =
          ⟨504, none, none, none, some (.errorJson "Timeout")⟩) ∧
    (∀ u : String, isValidUrl u = true →
        handler "GET" (some u) .fetchErr =
          ⟨502, none, none, none, some (.errorJson "Fetch failed")⟩) := by
  refine ⟨?_, ?_, ?_, by decide, by decide, ?_, ?_, ?_, ?_⟩
  · intro m u up hm
    simp [handler, hm]
  · intro up
    simp [handler]
  · intro u up h
    simp [handler, h]
  · intro u status body h h1 h2
    simp [handler, h, validUrl_ne_empty h, h1, h2]
  · intro u status body h hns
    simp [handler, h, validUrl_ne_empty h, hns]
  · intro u h
    simp [handler, h, validUrl_ne_empty h]
  · intro u h
    simp [handler, h, validUrl_ne_empty h]

/-- Witness for `reader_handler_cases` at concrete requests. -/
theorem reader_handler_cases_witness :
    handler "POST" (some "https://example.com") (.resp 200 "x")
      = ⟨405, some "GET", none, none, none⟩ ∧
    handler "GET" none .fetchErr = badRequest ∧
    handler "GET" (some "javascript:alert(1)") .fetchErr = badRequest ∧
    handler "GET" (some "https://example.com") (.resp 200 "<html>ok</html>")
      = ⟨200, none, some "application/json; charset=utf-8",
          some "private, max-age=60", some (.htmlJson "<html>ok</html>")⟩ ∧
    handler "GET" (some "https://example.com") (.resp 404 "nf")
      = ⟨404, none, none, none, some (.errorJson "Upstream error")⟩ ∧
    handler "GET" (some "https://example.com") .abortErr
      = ⟨504, none, none, none, some (.errorJson "Timeout")⟩ ∧
    handler "GET" (some "https://example.com") .fetchErr
      = ⟨502, none, none, none, some (.errorJson "Fetch failed")⟩ := by
  refine ⟨reader_handler_cases.1 _ _ _ (by decide),
    reader_handler_cases.2.1 _,
    reader_handler_cases.2.2.1 _ _ (by decide),
    reader_handler_cases.2.2.2.2.2.1 _ _ _ (by decide) (by decide) (by decide),
    reader_handler_cases.2.2.2.2.2.2.1 _ _ _ (by decide) (by decide),
    reader_handler_cases.2.2.2.2.2.2.2.1 _ (by decide),
    reader_handler_cases.2.2.2.2.2.2.2.2 _ (by decide)⟩

/-- C4 counterexample: `initDraggable` restores a persisted
`preview_split_ratio` of `0.05` verbatim, so the ratio in effect after
the restore lies outside `[0.2, 0.8]`. -/
theorem split_ratio_restore_counterexample :
    (stepPreview (initialPreview (some (1/20))) .restore).splitRatio = 1/20 ∧
    ¬((1 : ℚ)/5 ≤
      (stepPreview (initialPreview (some (1/20))) .restore).splitRatio) := by
  refine ⟨rfl, ?_⟩
  show ¬((1 : ℚ)/5 ≤ 1/20)
  norm_num

/-- C4 amended: every ratio applied during divider dragging is clamped
to `[0.2, 0.8]`; a release persists the ratio then in effect, so drag
inputs of 0.05 and 0.95 of the wrapper width are stored as 0.2 and 0.8;
but the initialization restore applies a persisted value verbatim, with
no clamping. -/
theorem split_ratio_drag_clamped (st : PreviewState) (x w : ℚ) (hw : 0 < w) :
    (1/5 ≤ (stepPreview st (.dragMove x w)).splitRatio ∧
      (stepPreview st (.dragMove x w)).splitRatio ≤ 4/5) ∧
    (stepPreview st .release).stored = some st.splitRatio ∧
    (∀ q, st.stored = some q → (stepPreview st .restore).splitRatio = q) ∧
    (stepPreview st (.dragMove (w * (1/20)) w)).splitRatio = 1/5 ∧
    (stepPreview st (.dragMove (w * (19/20)) w)).splitRatio = 4/5 ∧
    (stepPreview (stepPreview st (.dragMove (w * (1/20)) w)) .release).stored
      = some (1/5) := by
  have hcl : ∀ t : ℚ, 1/5 ≤ clampRatio t ∧ clampRatio t ≤ 4/5 := by
    intro t
    unfold clampRatio
    exact ⟨le_max_left _ _, max_le (by norm_num) (min_le_left _ _)⟩
  have hlow : clampRatio (w * (1/20) / w) = 1/5 := by
    rw [mul_div_cancel_left₀ _ hw.ne']
    unfold clampRatio
    norm_num
  have hhigh : clampRatio (w * (19/20) / w) = 4/5 := by
    rw [mul_div_cancel_left₀ _ hw.ne']
    unfold clampRatio
    norm_num
  refine ⟨hcl _, rfl, ?_, hlow, hhigh, ?_⟩
  · intro q hq
    simp [stepPreview, hq]
  · show some (clampRatio (w * (1/20) / w)) = some (1/5)
    rw [hlow]

/-- Witness for `split_ratio_drag_clamped` at wrapper width 20. -/
theorem split_ratio_drag_clamped_witness :
    (1/5 ≤ (stepPreview (initialPreview none) (.dragMove 3 20)).splitRatio ∧
      (stepPreview (initialPreview none) (.dragMove 3 20)).splitRatio ≤ 4/5) ∧
    (stepPreview (initialPreview none)
        (.dragMove (20 * (1/20)) 20)).splitRatio = 1/5 ∧
    (stepPreview (initialPreview none)
        (.dragMove (20 * (19/20)) 20)).splitRatio = 4/5 :=
  ⟨(split_ratio_drag_clamped (initialPreview none) 3 20 (by norm_num)).1,
   (split_ratio_drag_clamped (initialPreview none) 3 20
     (by norm_num)).2.2.2.1,
   (split_ratio_drag_clamped (initialPreview none) 3 20
     (by norm_num)).2.2.2.2.1⟩

/-- C6: a date is counted available by the history probe exactly when
its fetch returned an ok response whose trimmed body starts with `#`;
in particular a 200 body `<html>404</html>` is rejected and a 200 body
`# Daily Report` is accepted. -/
theorem report_available_iff :
    (∀ (fetch : Int → FetchResult) (dates : List Int) (d : Int),
        d ∈ availableDates fetch dates ↔
          d ∈ dates ∧ ∃ body, fetch d = .resp true body ∧
            startsWithHash body.toList = true) ∧
    reportAvailable (.resp true "<html>404</html>") = false ∧
    reportAvailable (.resp true "# Daily Report") = true := by
  refine ⟨?_, by decide, by decide⟩
  intro f dates d
  simp only [availableDates, List.mem_filter]
  constructor
  · rintro ⟨hd, hav⟩
    refine ⟨hd, ?_⟩
    rcases hf : f d with _ | ⟨ok, body⟩
    · rw [hf] at hav
      simp [reportAvailable] at hav
    · rw [hf] at hav
      simp only [reportAvailable, Bool.and_eq_true] at hav
      cases hav.1
      exact ⟨body, rfl, hav.2⟩
  · rintro ⟨hd, body, hf, hsw⟩
    refine ⟨hd, ?_⟩
    rw [hf]
    simp only [reportAvailable, Bool.true_and]
    exact hsw

/-- Witness for `report_available_iff`: day 0 with a real report body is
listed as available. -/
theorem report_available_iff_witness :
    (0 : Int) ∈ availableDates (fun _ => .resp true "# Daily Report") [0] :=
  (report_available_iff.1 (fun _ => .resp true "# Daily Report") [0] 0).mpr
    ⟨by decide, "# Daily Report", rfl, by decide⟩

/-- C7: the arXiv preview transforms round-trip on the spec's example:
the PDF transform sends `https://arxiv.org/abs/2401.00001` to
`https://arxiv.org/pdf/2401.00001.pdf`, and the abstract transform sends
that PDF URL back to the original. -/
theorem arxiv_round_trip :
    toPdfUrl "https://arxiv.org/abs/2401.00001".toList
      = "https://arxiv.org/pdf/2401.00001.pdf".toList ∧
    toAbsUrl "https://arxiv.org/pdf/2401.00001.pdf".toList
      = "https://arxiv.org/abs/2401.00001".toList := by
  constructor <;> decide

/-- A string with an unterminated `<img` occurrence contains `<img`. -/
theorem hasUntermImgSpec_contains {l : List Char}
    (h : hasUntermImgSpec l = true) : containsTok "<img".toList l = true := by
  induction l with
  | nil => simp [hasUntermImgSpec] at h
  | cons c rest ih =>
    simp only [hasUntermImgSpec, Bool.or_eq_true, Bool.and_eq_true] at h
    simp only [containsTok, Bool.or_eq_true]
    rcases h with h | h
    · exact Or.inl h.1
    · exact Or.inr (ih h)

/-- C8 counterexample: a `.news-summary` block whose markup contains an
unterminated `<img` tag is NOT blanked when the markup also contains a
`/>` somewhere (the code requires the whole block to be free of `/>`
and of any well-formed `<img ...>` before blanking). -/
theorem sanitize_unterminated_img_counterexample :
    hasUntermImgSpec "<br/><img src=x".toList = true ∧
    sanitizeSummary "<br/><img src=x".toList = "<br/><img src=x".toList ∧
    "<br/><img src=x".toList ≠ [] := by
  exact ⟨by decide, by decide, by decide⟩

/-- C8 amended: the sanitation pass blanks a `.news-summary` block that
contains an unterminated `<img` occurrence provided the whole block
contains no `/>` and no well-formed `<img ...>` match (in particular a
block that is exactly `<img src=x` is blanked); and it blanks every
block whose count of `style="` openings exceeds its count of closed
`style="..."` attributes. -/
theorem sanitize_blanks (l : List Char) :
    (hasUntermImgSpec l = true → containsTok "/>".toList l = false →
      hasImgMatch l = false → sanitizeSummary l = []) ∧
    (countStyleClosed l < countStyleOpen l → sanitizeSummary l = []) ∧
    sanitizeSummary "<img src=x".toList = [] ∧
    sanitizeSummary "style=\"color:red".toList = [] := by
  refine ⟨?_, ?_, by decide, by decide⟩
  · intro h1 h2 h3
    have hbroken : brokenImgCheck l = true := by
      simp only [brokenImgCheck, h3, Bool.not_false, Bool.and_true,
        Bool.and_eq_true]
      exact ⟨hasUntermImgSpec_contains h1, by rw [h2]; rfl⟩
    simp [sanitizeSummary, hbroken]
  · intro h
    have hstyle : unbalancedStyleCheck l = true := by
      simpa [unbalancedStyleCheck] using h
    simp [sanitizeSummary, hstyle]

/-- Witness for `sanitize_blanks`: the lone broken img and an
unbalanced-style block are both blanked. -/
theorem sanitize_blanks_witness :
    sanitizeSummary "<img src=x".toList = [] ∧
    sanitizeSummary "style=\"a\" style=\"b".toList = [] :=
  ⟨(sanitize_blanks "<img src=x".toList).1 (by decide) (by decide) (by decide),
   (sanitize_blanks "style=\"a\" style=\"b".toList).2.1 (by decide)⟩

/-- The probe order `getRecentDates` is strictly decreasing (newest first). -/
theorem recentDates_pairwise (today : Int) (n : Nat) :
    (recentDates today n).Pairwise (· > ·) := by
  unfold recentDates
  refine List.Pairwise.map (fun i : Nat => today - (i : Int)) ?_
    (List.pairwise_lt_range n)
  intro a b hab
  show today - (a : Int) > today - (b : Int)
  omega

/-- Computation of `refresh` when the probe finds at least one date. -/
theorem refresh_cons (today : Int) (fetch : Int → FetchResult)
    (hash : Option Int) (a : Int) (rest : List Int)
    (ha : availableDates fetch (recentDates today 7) = a :: rest) :
    refresh today fetch hash =
      ⟨(a :: rest).map (fun d => (d, historyIcon (d = today))),
        some (match hash with
              | some h => if (a :: rest).contains h then h else a
              | none => a),
        some (match hash with
              | some h => if (a :: rest).contains h then h else a
              | none => a),
        none⟩ := by
  unfold refresh
  rw [ha]

/-- The head of the probed available-dates list is the most recent
available date. -/
theorem avail_head_max (fetch : Int → FetchResult) (today : Int) {a : Int}
    {rest : List Int}
    (h : availableDates fetch (recentDates today 7) = a :: rest) :
    ∀ d ∈ a :: rest, d ≤ a := by
  have hp : (a :: rest).Pairwise (· > ·) := by
    rw [← h]
    exact (recentDates_pairwise today 7).sublist (List.filter_sublist _)
  intro d hd
  rcases List.mem_cons.mp hd with h1 | h1
  · omega
  · have := (List.pairwise_cons.mp hp).1 d h1
    omega

/-- C9: `refresh`: when the URL-fragment date is among the available
dates it is displayed (and kept as the fragment); otherwise, with at
least one available date, the most recent available date is displayed
and becomes the fragment; with reports present only for today and
yesterday and no fragment set, exactly two history entries are rendered
(today pinned distinctly) and today's content is displayed; with no
available date, the fixed empty state naming the scheduled 08:00 run
time is rendered and the fragment is untouched. -/
theorem refresh_behavior :
    (∀ (today : Int) (fetch : Int → FetchResult) (h : Int),
        h ∈ availableDates fetch (recentDates today 7) →
        (refresh today fetch (some h)).displayed = some h ∧
        (refresh today fetch (some h)).finalHash = some h) ∧
    (∀ (today : Int) (fetch : Int → FetchResult) (hash : Option Int),
        (∀ h, hash = some h →
          h ∉ availableDates fetch (recentDates today 7)) →
        availableDates fetch (recentDates today 7) ≠ [] →
        ∃ m, (refresh today fetch hash).displayed = some m ∧
          (refresh today fetch hash).finalHash = some m ∧
          m ∈ availableDates fetch (recentDates today 7) ∧
          ∀ d ∈ availableDates fetch (recentDates today 7), d ≤ m) ∧
    (∀ today : Int,
        refresh today (reportsOnlyTodayYesterday today) none =
          ⟨[(today, "📌"), (today - 1, "📄")], some today, some today,
            none⟩) ∧
    (∀ (today : Int) (fetch : Int → FetchResult) (hash : Option Int),
        (∀ d, reportAvailable (fetch d) = false) →
        refresh today fetch hash = ⟨[], none, hash, some emptyStateCopy⟩) ∧
    emptyStateCopy = "等待每日北京时间 08:00 自动生成新闻报告" := by
  refine ⟨?_, ?_, ?_, ?_, rfl⟩
  · intro today fetch h hmem
    rcases ha : availableDates fetch (recentDates today 7) with _ | ⟨a, rest⟩
    · rw [ha] at hmem
      cases hmem
    · rw [ha] at hmem
      have hc : (a :: rest).contains h = true := List.elem_iff.mpr hmem
      rw [refresh_cons today fetch (some h) a rest ha]
      refine ⟨?_, ?_⟩ <;>
        · show some (if (a :: rest).contains h = true then h else a) = some h
          simp only [hc]
          rfl
  · intro today fetch hash hnot hne
    rcases ha : availableDates fetch (recentDates today 7) with _ | ⟨a, rest⟩
    · exact absurd ha hne
    · have hmax := avail_head_max fetch today ha
      rcases hash with _ | h
      · rw [refresh_cons today fetch none a rest ha]
        exact ⟨a, rfl, rfl, List.mem_cons_self a rest, hmax⟩
      · have hnm : h ∉ a :: rest := by
          have hn := hnot h rfl
          rw [ha] at hn
          exact hn
        have hc : (a :: rest).contains h = false := by
          rw [Bool.eq_false_iff]
          intro hcon
          exact hnm (List.elem_iff.mp hcon)
        rw [refresh_cons today fetch (some h) a rest ha]
        refine ⟨a, ?_, ?_, List.mem_cons_self a rest, hmax⟩ <;>
          · show some (if (a :: rest).contains h = true then h else a) = some a
            simp only [hc]
            rfl
  · intro today
    have hdates : recentDates today 7 =
        [today, today - 1, today - 2, today - 3, today - 4, today - 5,
         today - 6] := by
      unfold recentDates
      rw [show List.range 7 = [0, 1, 2, 3, 4, 5, 6] by rfl]
      simp
    have hsw : startsWithHash
        ['#', ' ', 'D', 'a', 'i', 'l', 'y', ' ', 'R', 'e', 'p', 'o', 'r',
         't'] = true := by decide
    have e1 : today - 1 ≠ today := by omega
    have e2 : today - 2 ≠ today := by omega
    have e2' : today - 2 ≠ today - 1 := by omega
    have e3 : today - 3 ≠ today := by omega
    have e3' : today - 3 ≠ today - 1 := by omega
    have e4 : today - 4 ≠ today := by omega
    have e4' : today - 4 ≠ today - 1 := by omega
    have e5 : today - 5 ≠ today := by omega
    have e5' : today - 5 ≠ today - 1 := by omega
    have e6 : today - 6 ≠ today := by omega
    have e6' : today - 6 ≠ today - 1 := by omega
    have havail : availableDates (reportsOnlyTodayYesterday today)
        (recentDates today 7) = [today, today - 1] := by
      rw [hdates]
      simp only [availableDates, List.filter_cons, List.filter_nil,
        reportsOnlyTodayYesterday]
      simp [e1, e2, e2', e3, e3', e4, e4', e5, e5', e6, e6',
        reportAvailable, hsw]
    rw [refresh_cons today (reportsOnlyTodayYesterday today) none today
      [today - 1] havail]
    simp [historyIcon, e1]
  · intro today fetch hash hall
    have hav : availableDates fetch (recentDates today 7) = [] :=
      List.filter_eq_nil_iff.mpr (fun d _ => by simp [hall d])
    simp [refresh, hav]

/-- Witness for `refresh_behavior` at concrete inputs (today = day 0,
reports for days 0 and −1). -/
theorem refresh_behavior_witness :
    (refresh 0 (reportsOnlyTodayYesterday 0) (some (-1))).displayed
      = some (-1) ∧
    (∃ m, (refresh 0 (reportsOnlyTodayYesterday 0) (some 5)).displayed
        = some m ∧
      (refresh 0 (reportsOnlyTodayYesterday 0) (some 5)).finalHash
        = some m ∧
      m ∈ availableDates (reportsOnlyTodayYesterday 0) (recentDates 0 7) ∧
      ∀ d ∈ availableDates (reportsOnlyTodayYesterday 0) (recentDates 0 7),
        d ≤ m) ∧
    refresh 0 (fun _ => FetchResult.err) (some 3)
      = ⟨[], none, some 3, some emptyStateCopy⟩ :=
  ⟨(refresh_behavior.1 0 (reportsOnlyTodayYesterday 0) (-1) (by decide)).1,
   refresh_behavior.2.1 0 (reportsOnlyTodayYesterday 0) (some 5)
     (fun h hh => by cases hh; decide) (by decide),
   refresh_behavior.2.2.2.1 0 (fun _ => FetchResult.err) (some 3)
     (fun _ => rfl)⟩

end AicgNews
